import Mathlib

/-!
Shallow embedding of the amiquip event loop core (src/event_loop.rs and
src/errors.rs) together with the collaborators it uses.  Collaborator code
that is not part of the provided sources (frame_buffer.rs, heartbeats.rs,
connection_options.rs, serialize.rs and the mio timer) is modelled from the
specification; every such definition is marked in its doc comment.
-/

namespace AQ

/-- The two heartbeat directions, mirroring `enum HeartbeatKind` in
event_loop.rs. -/
inductive HeartbeatKind
  | Rx
  | Tx
deriving DecidableEq, Repr

/-- Result of firing a heartbeat timer, mirroring `HeartbeatState` from the
(absent) heartbeats.rs, as used by event_loop.rs. -/
inductive HeartbeatState
  | StillRunning
  | Expired
deriving DecidableEq, Repr

/-- The payload of a `connection.close` method frame, mirroring
`amq_protocol::protocol::connection::Close` as used by event_loop.rs.
Machine integers `u16` are modelled as `Nat`. -/
structure Close where
  reply_code : Nat
  reply_text : String
  class_id : Nat
  method_id : Nat
deriving DecidableEq, Repr

/-- Payload of the server's `connection.start` method: the fields consumed by
the client are the space-separated mechanism and locale lists. -/
structure StartData where
  mechanisms : String
  locales : String
deriving DecidableEq, Repr

/-- Payload of the client's `connection.start-ok` reply. -/
structure StartOkData where
  mechanism : String
  response : String
  locale : String
deriving DecidableEq, Repr

/-- Payload of `connection.tune` and `connection.tune-ok`: the three
negotiated parameters. -/
structure TuneData where
  channel_max : Nat
  frame_max : Nat
  heartbeat : Nat
deriving DecidableEq, Repr

/-- Connection-class methods (`amq_protocol::protocol::connection::AMQPMethod`)
restricted to the constructors event_loop.rs matches on; every constructor not
listed here falls into the wildcard branches of the source's matches exactly as
these extra constructors do. -/
inductive AMQPMethod
  | Start (s : StartData)
  | StartOk (s : StartOkData)
  | Secure (challenge : String)
  | SecureOk (response : String)
  | Tune (t : TuneData)
  | TuneOk (t : TuneData)
  | Open
  | OpenOk
  | Close (c : Close)
  | CloseOk
deriving DecidableEq, Repr

/-- Method classes: event_loop.rs only matches `AMQPClass::Connection`;
all other classes are represented by an opaque class id. -/
inductive AMQPClass
  | Connection (m : AMQPMethod)
  | OtherClass (classId : Nat)
deriving DecidableEq, Repr

/-- Wire frames (`amq_protocol::frame::AMQPFrame`): method frames and
heartbeat frames are matched by the source; all other frame types are
represented by an opaque tag. -/
inductive AMQPFrame
  | Method (channel : Nat) (cls : AMQPClass)
  | Heartbeat (channel : Nat)
  | OtherFrame (frameType : Nat) (channel : Nat)
deriving DecidableEq, Repr

/-- Error kinds, mirroring `ErrorKind` in errors.rs (the variants the event
loop can produce). -/
inductive ErrorKind
  | UnexpectedSocketClose
  | ReceivedMalformed
  | Io
  | UnsupportedAuthMechanism (available : String)
  | UnsupportedLocale (available : String)
  | FrameMaxTooSmall (min : Nat)
  | SocketPollTimeout
  | InternalSerializationError
  | SaslSecureNotSupported
  | InvalidCredentials
  | HandshakeUnexpectedServerFrame (f : AMQPFrame)
  | HandshakeWrongServerFrame (expected : String) (f : AMQPFrame)
  | MissedServerHeartbeats
  | ServerClosedConnection (code : Nat) (text : String)
  | ClientClosedConnection (code : Nat) (text : String)
deriving DecidableEq, Repr

/-- An error value with its cause chain, mirroring the failure crate's
`Context` chaining used by errors.rs: `err.context(kind)` wraps `err` inside a
new error whose kind is `kind`. -/
inductive AError
  | mk (kind : ErrorKind)
  | context (kind : ErrorKind) (cause : AError)
deriving DecidableEq, Repr

/-- An abstract method-frame encoder standing for the serializer in the
(absent) serialize.rs: given a channel id and a method it yields the
serialized frame bytes, or fails (which the source reports as
`InternalSerializationError`).  All theorems hold for every encoder. -/
abbrev Enc := Nat → AMQPMethod → Option (List Nat)

/-- Serialized bytes of the canonical channel-0 heartbeat frame
(frame type 8, channel 0, size 0, frame-end octet). -/
def heartbeatFrame : List Nat := [8, 0, 0, 0, 0, 0, 0, 206]

/-- Modelled from the spec: serialize.rs (OutputBuffer) is not in src.
Append-only staging buffer of serialized outbound frames. -/
structure OutputBuffer where
  bytes : List Nat
deriving DecidableEq, Repr

/-- Modelled from the spec: fresh empty output buffer. -/
def OutputBuffer.new : OutputBuffer := ⟨[]⟩

/-- Modelled from the spec: length query. -/
def OutputBuffer.len (b : OutputBuffer) : Nat := b.bytes.length

/-- Modelled from the spec: emptiness query. -/
def OutputBuffer.is_empty (b : OutputBuffer) : Bool := b.bytes.isEmpty

/-- Modelled from the spec: serialize one method frame and append it;
fails with `InternalSerializationError` on encoder failure. -/
def OutputBuffer.push_method (enc : Enc) (b : OutputBuffer) (channel : Nat)
    (m : AMQPMethod) : Except AError OutputBuffer :=
  match enc channel m with
  | none => .error (.mk .InternalSerializationError)
  | some bs => .ok ⟨b.bytes ++ bs⟩

/-- Modelled from the spec: append the canonical heartbeat frame. -/
def OutputBuffer.push_heartbeat (b : OutputBuffer) : OutputBuffer :=
  ⟨b.bytes ++ heartbeatFrame⟩

/-- Modelled from the spec: remove the first `n` bytes from the front. -/
def OutputBuffer.drain_written (b : OutputBuffer) (n : Nat) : OutputBuffer :=
  ⟨b.bytes.drop n⟩

/-- Modelled from the spec: discard all content. -/
def OutputBuffer.clear (_ : OutputBuffer) : OutputBuffer := ⟨[]⟩

/-- Modelled from the spec: the mio timer wheel shared by the two heartbeat
directions.  `due` holds elapsed timeouts (returned by `poll` in order);
`scheduled` holds pending timeouts that have not yet elapsed.  The passage of
time, which moves a scheduled timeout into `due`, is an environment step of
the system transition relation. -/
structure TimerWheel where
  due : List HeartbeatKind
  scheduled : List HeartbeatKind
deriving DecidableEq, Repr

/-- Modelled from the spec: schedule a new timeout on the wheel. -/
def TimerWheel.set_timeout (t : TimerWheel) (k : HeartbeatKind) : TimerWheel :=
  { t with scheduled := t.scheduled ++ [k] }

/-- `MAX_MISSED_SERVER_HEARTBEATS` from event_loop.rs. -/
def MAX_MISSED_SERVER_HEARTBEATS : Nat := 2

/-- Modelled from the spec: heartbeats.rs is not in src.  One heartbeat
direction records activity since its last fire; the timestamp of the record
is abstracted to a count of recordings since the last fire.  `interval` is in
seconds. -/
structure Heartbeat where
  interval : Nat
  activityCount : Nat
deriving DecidableEq, Repr

/-- Modelled from the spec: starting a heartbeat schedules its token on the
wheel. -/
def Heartbeat.start (kind : HeartbeatKind) (interval : Nat) (t : TimerWheel) :
    Heartbeat × TimerWheel :=
  (⟨interval, 0⟩, t.set_timeout kind)

/-- Modelled from the spec: record one unit of activity. -/
def Heartbeat.record_activity (hb : Heartbeat) : Heartbeat :=
  { hb with activityCount := hb.activityCount + 1 }

/-- Modelled from the spec: on fire, if activity has been recorded since the
last fire the state is `StillRunning` and the timer is rescheduled, else
`Expired`. -/
def Heartbeat.fire (hb : Heartbeat) (kind : HeartbeatKind) (t : TimerWheel) :
    HeartbeatState × Heartbeat × TimerWheel :=
  if hb.activityCount > 0 then
    (.StillRunning, { hb with activityCount := 0 }, t.set_timeout kind)
  else
    (.Expired, { hb with activityCount := 0 }, t)

/-- `struct HeartbeatTimers` from event_loop.rs: the shared wheel and the two
optional directional heartbeats. -/
structure HeartbeatTimers where
  timer : TimerWheel
  rx : Option Heartbeat
  tx : Option Heartbeat
deriving DecidableEq, Repr

/-- `HeartbeatTimers::default()`. -/
def HeartbeatTimers.default : HeartbeatTimers := ⟨⟨[], []⟩, none, none⟩

/-- `HeartbeatTimers::record_rx_activity`. -/
def HeartbeatTimers.record_rx_activity (h : HeartbeatTimers) : HeartbeatTimers :=
  match h.rx with
  | some hb => { h with rx := some hb.record_activity }
  | none => h

/-- `HeartbeatTimers::record_tx_activity`. -/
def HeartbeatTimers.record_tx_activity (h : HeartbeatTimers) : HeartbeatTimers :=
  match h.tx with
  | some hb => { h with tx := some hb.record_activity }
  | none => h

/-- `record_tx_activity` applied `n` times, used to account for the one call
per successful socket write inside the write loop. -/
def HeartbeatTimers.recordTxN (n : Nat) (h : HeartbeatTimers) : HeartbeatTimers :=
  match n with
  | 0 => h
  | n + 1 => HeartbeatTimers.recordTxN n h.record_tx_activity

/-- `HeartbeatTimers::start`: asserts both directions are unstarted (the
assertion failure is modelled as `none`), then starts the rx watchdog at
`interval * MAX_MISSED_SERVER_HEARTBEATS` and the tx prompt at `interval`. -/
def HeartbeatTimers.start (h : HeartbeatTimers) (interval : Nat) :
    Option HeartbeatTimers :=
  if h.rx.isSome || h.tx.isSome then none
  else
    let p1 := Heartbeat.start .Rx (interval * MAX_MISSED_SERVER_HEARTBEATS) h.timer
    let p2 := Heartbeat.start .Tx interval p1.2
    some { timer := p2.2, rx := some p1.1, tx := some p2.1 }

/-- `HeartbeatTimers::fire_rx`: `expect` on an unset rx heartbeat is the
panicking branch, modelled as `none`. -/
def HeartbeatTimers.fire_rx (h : HeartbeatTimers) :
    Option (HeartbeatState × HeartbeatTimers) :=
  match h.rx with
  | none => none
  | some hb =>
    let r := hb.fire .Rx h.timer
    some (r.1, { h with rx := some r.2.1, timer := r.2.2 })

/-- `HeartbeatTimers::fire_tx`: `expect` on an unset tx heartbeat is the
panicking branch, modelled as `none`. -/
def HeartbeatTimers.fire_tx (h : HeartbeatTimers) :
    Option (HeartbeatState × HeartbeatTimers) :=
  match h.tx with
  | none => none
  | some hb =>
    let r := hb.fire .Tx h.timer
    some (r.1, { h with tx := some r.2.1, timer := r.2.2 })

/-- Modelled from the spec: connection_options.rs is not in src.  The client
configuration consumed by the event loop: auth mechanism name and response,
locale, and channel-max / frame-max / heartbeat preferences (an unset
heartbeat preference takes the server's value). -/
structure ConnectionOptions where
  mechanism : String
  authResponse : String
  locale : String
  channel_max : Nat
  frame_max : Nat
  heartbeat : Option Nat
deriving DecidableEq, Repr

/-- Split a character list at spaces, accumulating the current word in
reverse. -/
def splitOnSpaceAux : List Char → List Char → List String
  | [], acc => [String.mk acc.reverse]
  | c :: rest, acc =>
    if c = ' ' then String.mk acc.reverse :: splitOnSpaceAux rest []
    else splitOnSpaceAux rest (c :: acc)

/-- Split a string into its space-separated items (the protocol's list
encoding for mechanisms and locales). -/
def splitOnSpace (s : String) : List String := splitOnSpaceAux s.data []

/-- Modelled from the spec: build `start-ok` from the server's `start`,
failing if the client's mechanism or locale is not advertised in the server's
space-separated lists. -/
def ConnectionOptions.make_start_ok (o : ConnectionOptions) (s : StartData) :
    Except AError StartOkData :=
  if o.mechanism ∈ splitOnSpace s.mechanisms then
    if o.locale ∈ splitOnSpace s.locales then
      .ok ⟨o.mechanism, o.authResponse, o.locale⟩
    else .error (.mk (.UnsupportedLocale s.locales))
  else .error (.mk (.UnsupportedAuthMechanism s.mechanisms))

/-- Modelled from the spec: negotiate `tune-ok`.  Channel-max: server value if
nonzero, else the client's preference.  Frame-max: min of server and client,
rejected as `FrameMaxTooSmall` below the protocol minimum of 4096.
Heartbeat: the client's preference if set, else the server's. -/
def ConnectionOptions.make_tune_ok (o : ConnectionOptions) (t : TuneData) :
    Except AError TuneData :=
  let cm := if t.channel_max ≠ 0 then t.channel_max else o.channel_max
  let fm := min t.frame_max o.frame_max
  if fm < 4096 then .error (.mk (.FrameMaxTooSmall 4096))
  else .ok ⟨cm, fm, o.heartbeat.getD t.heartbeat⟩

/-- Modelled from the spec: the `connection.open` method the client sends. -/
def ConnectionOptions.make_open (_ : ConnectionOptions) : AMQPMethod := .Open

/-- `struct CloseRequest` from event_loop.rs: the pending close and the byte
offset into `outbuf` marking the end of the serialized frame that closes the
connection. -/
structure CloseRequest where
  close : Close
  pos : Nat
deriving DecidableEq, Repr

/-- `struct Inner` from event_loop.rs. -/
structure Inner where
  outbuf : OutputBuffer
  server_close_req : Option CloseRequest
  our_close_req : Option CloseRequest
  options : ConnectionOptions
  heartbeats : HeartbeatTimers
deriving DecidableEq, Repr

/-- `Inner::new`. -/
def Inner.new (options : ConnectionOptions) (heartbeats : HeartbeatTimers) : Inner :=
  ⟨OutputBuffer.new, none, none, options, heartbeats⟩

/-- `Inner::has_data_to_write`. -/
def Inner.has_data_to_write (i : Inner) : Bool := !i.outbuf.is_empty

/-- `Inner::set_server_close_req`: the first call enqueues `close-ok` and
records the request at the new end of `outbuf`; later calls return `Ok`
without touching anything. -/
def Inner.set_server_close_req (enc : Enc) (i : Inner) (close : Close) :
    Except AError Inner :=
  if i.server_close_req.isSome then .ok i
  else
    match i.outbuf.push_method enc 0 .CloseOk with
    | .error e => .error e
    | .ok ob =>
      .ok { i with outbuf := ob, server_close_req := some ⟨close, ob.len⟩ }

/-- `Inner::set_our_close_req`: the first call enqueues `close` and records
the request at the new end of `outbuf`; later calls return `Ok` without
touching anything. -/
def Inner.set_our_close_req (enc : Enc) (i : Inner) (close : Close) :
    Except AError Inner :=
  if i.our_close_req.isSome then .ok i
  else
    match i.outbuf.push_method enc 0 (.Close close) with
    | .error e => .error e
    | .ok ob =>
      .ok { i with outbuf := ob, our_close_req := some ⟨close, ob.len⟩ }

/-- `Inner::start_heartbeats`: only starts the timers for a nonzero
interval. -/
def Inner.start_heartbeats (i : Inner) (interval : Nat) : Option Inner :=
  if interval > 0 then
    match i.heartbeats.start interval with
    | none => none
    | some h => some { i with heartbeats := h }
  else some i

/-- `Inner::push_method`. -/
def Inner.push_method (enc : Enc) (i : Inner) (channel : Nat) (m : AMQPMethod) :
    Except AError Inner :=
  match i.outbuf.push_method enc channel m with
  | .error e => .error e
  | .ok ob => .ok { i with outbuf := ob }

/-- `Inner::record_rx_activity`. -/
def Inner.record_rx_activity (i : Inner) : Inner :=
  { i with heartbeats := i.heartbeats.record_rx_activity }

/-- `enum ConnectionState` from event_loop.rs. -/
inductive ConnectionState
  | Start
  | Secure
  | Tune
  | Open
  | Steady
  | Closing (close : Close)
deriving DecidableEq, Repr

/-- `ConnectionState::is_closing`. -/
def ConnectionState.is_closing : ConnectionState → Bool
  | .Closing _ => true
  | _ => false

/-- Abstraction of `format!` applied to a frame in the `Steady` wildcard
branch of `ConnectionState::process` (Debug formatting of the external frame
type is not modelled byte-for-byte). -/
def frameText (_ : AMQPFrame) : String := "do not know how to handle frame"

/-- `AMQPHardError::NOTIMPLEMENTED.get_id()` from amq_protocol. -/
def notImplementedId : Nat := 540

/-- The body of the `ConnectionState::Tune` arm of `ConnectionState::process`.
It is factored out because the `Secure` arm re-processes the same frame after
transitioning to `Tune`; both arms run exactly this code.  The outer `none`
models the panic inside `HeartbeatTimers::start` (its assertion). -/
def processTuneFrame (enc : Enc) (i : Inner) (frame : AMQPFrame) :
    Option (Except AError (ConnectionState × Inner)) :=
  match frame with
  | .Method 0 (.Connection (.Tune tune)) =>
    match i.options.make_tune_ok tune with
    | .error e => some (.error e)
    | .ok tune_ok =>
      match i.start_heartbeats tune_ok.heartbeat with
      | none => none
      | some i1 =>
        match i1.push_method enc 0 (.TuneOk tune_ok) with
        | .error e => some (.error e)
        | .ok i2 =>
          match i2.push_method enc 0 (i2.options.make_open) with
          | .error e => some (.error e)
          | .ok i3 => some (.ok (.Open, i3))
  | _ => some (.error (.mk (.HandshakeWrongServerFrame "tune" frame)))

/-- `ConnectionState::process`: the handshake state machine reacting to one
inbound frame.  The mutable `(&mut self, &mut Inner)` pair becomes the
returned `ConnectionState × Inner`; an error return terminates the loop, so
errors carry no successor state.  The `Secure` arm's `Tune` case performs the
source's `*self = Tune; self.process(inner, frame)` by running the factored
`Tune` arm on the same frame. -/
def ConnectionState.process (enc : Enc) :
    ConnectionState → Inner → AMQPFrame →
      Option (Except AError (ConnectionState × Inner))
  | .Start, i, frame =>
    match frame with
    | .Method 0 (.Connection (.Start start)) =>
      match i.options.make_start_ok start with
      | .error e => some (.error e)
      | .ok start_ok =>
        match i.push_method enc 0 (.StartOk start_ok) with
        | .error e => some (.error e)
        | .ok i1 => some (.ok (.Secure, i1))
    | _ => some (.error (.mk (.HandshakeWrongServerFrame "start" frame)))
  | .Secure, i, frame =>
    match frame with
    | .Method 0 (.Connection (.Secure _)) =>
      some (.error (.mk .SaslSecureNotSupported))
    | .Method 0 (.Connection (.Tune _)) => processTuneFrame enc i frame
    | _ =>
      some (.error (.mk (.HandshakeWrongServerFrame "secure or tune" frame)))
  | .Tune, i, frame => processTuneFrame enc i frame
  | .Open, i, frame =>
    match frame with
    | .Method 0 (.Connection .OpenOk) => some (.ok (.Steady, i))
    | .Method 0 (.Connection (.Close close)) =>
      match i.set_server_close_req enc close with
      | .error e => some (.error e)
      | .ok i1 => some (.ok (.Open, i1))
    | _ => some (.error (.mk (.HandshakeWrongServerFrame "open-ok" frame)))
  | .Closing close, i, frame =>
    match frame with
    | .Method 0 (.Connection .CloseOk) =>
      some (.error (.mk (.ClientClosedConnection close.reply_code close.reply_text)))
    | _ => some (.ok (.Closing close, i))
  | .Steady, i, frame =>
    match frame with
    | .Method 0 (.Connection (.Close close)) =>
      match i.set_server_close_req enc close with
      | .error e => some (.error e)
      | .ok i1 => some (.ok (.Steady, i1))
    | other =>
      match i.set_our_close_req enc
          ⟨notImplementedId, frameText other, 0, 0⟩ with
      | .error e => some (.error e)
      | .ok i1 => some (.ok (.Steady, i1))

/-- The per-frame callback of `Inner::read_from_stream`: channel-0 heartbeat
frames are filtered out, every other frame goes to `ConnectionState::process`.
Applied to each decoded frame in arrival order, aborting on the first
error. -/
def dispatchFrames (enc : Enc) :
    List AMQPFrame → ConnectionState → Inner →
      Option (Except AError (ConnectionState × Inner))
  | [], s, i => some (.ok (s, i))
  | f :: rest, s, i =>
    match f with
    | .Heartbeat 0 => dispatchFrames enc rest s i
    | f =>
      match ConnectionState.process enc s i f with
      | none => none
      | some (.error e) => some (.error e)
      | some (.ok (s1, i1)) => dispatchFrames enc rest s1 i1

/-- Modelled from the spec: frame_buffer.rs is not in src.  The outcome of one
`FrameBuffer::read_from` drain of the socket: either a read error
(`Io`, `UnexpectedSocketClose` or `ReceivedMalformed`), or the list of byte
counts of the successful socket reads performed before would-block together
with the complete frames that were decoded and delivered to the callback. -/
inductive ReadEvent
  | err (e : ErrorKind)
  | ok (reads : List Nat) (frames : List AMQPFrame)

/-- Total byte count of one drain (the `n` returned by
`FrameBuffer::read_from`). -/
def ReadEvent.total : ReadEvent → Nat
  | .err _ => 0
  | .ok reads _ => reads.sum

/-- `Inner::read_from_stream`: drain the socket through the frame buffer,
dispatching every decoded frame, then record rx activity once if the drain
consumed at least one byte. -/
def Inner.read_from_stream (enc : Enc) (s : ConnectionState) (i : Inner)
    (ev : ReadEvent) : Option (Except AError (ConnectionState × Inner)) :=
  match ev with
  | .err e => some (.error (.mk e))
  | .ok reads frames =>
    match dispatchFrames enc frames s i with
    | none => none
    | some (.error e) => some (.error e)
    | some (.ok (s1, i1)) =>
      if reads.sum > 0 then some (.ok (s1, i1.record_rx_activity))
      else some (.ok (s1, i1))

/-- Result of one non-blocking `stream.write` call, supplied by the
environment. -/
inductive WriteRes
  | ok (n : Nat)
  | wouldBlock
  | ioErr
deriving DecidableEq, Repr

/-- Exit cause of the write loop of `Inner::write_to_stream`. -/
inductive WriteOutcome
  | completed
  | blocked (written : Nat)
  | ioError
deriving DecidableEq, Repr

/-- The write loop of `Inner::write_to_stream`: starting at `pos`, repeatedly
write until `len` bytes are done or the stream would block or errors.  Returns
the number of successful writes (each of which records tx activity) together
with the exit cause; `none` means the oracle list ran out while the loop still
wanted to write. -/
def writeLoop (len : Nat) : Nat → List WriteRes → Option (Nat × WriteOutcome)
  | pos, [] => if pos < len then none else some (0, .completed)
  | pos, .ok n :: rest =>
    if pos < len then
      (writeLoop len (pos + n) rest).map (fun p => (p.1 + 1, p.2))
    else some (0, .completed)
  | pos, .wouldBlock :: _ =>
    if pos < len then some (0, .blocked pos) else some (0, .completed)
  | pos, .ioErr :: _ =>
    if pos < len then some (0, .ioError) else some (0, .completed)

/-- The number of successful socket writes the write loop consumes before it
stops, defined independently of `writeLoop` for the activity-accounting
theorems. -/
def writeOkCount (len : Nat) : Nat → List WriteRes → Nat
  | _, [] => 0
  | pos, .ok n :: rest =>
    if pos < len then writeOkCount len (pos + n) rest + 1 else 0
  | _, .wouldBlock :: _ => 0
  | _, .ioErr :: _ => 0

/-- Environment validity of a write oracle: a successful write never reports
more bytes than the slice `outbuf[pos..]` it was handed. -/
def oracleValid (buflen len : Nat) : Nat → List WriteRes → Bool
  | _, [] => true
  | pos, .ok n :: rest =>
    if pos < len then
      decide (n ≤ buflen - pos) && oracleValid buflen len (pos + n) rest
    else true
  | _, .wouldBlock :: _ => true
  | _, .ioErr :: _ => true

/-- The chosen write length of `Inner::write_to_stream`: all queued bytes,
clamped to each pending close request's position. -/
def Inner.writeLen (i : Inner) : Nat :=
  let len := i.outbuf.len
  let len :=
    match i.server_close_req with
    | some req => min len req.pos
    | none => len
  match i.our_close_req with
  | some req => min len req.pos
  | none => len

/-- The tail of `Inner::write_to_stream` after the loop wrote everything:
if the full drain reached `our_close_req.pos`, move to `Closing`; then clear
the buffer. -/
def Inner.writeFinish (i : Inner) (state : ConnectionState) (len : Nat) :
    ConnectionState × Inner :=
  let state1 :=
    match i.our_close_req with
    | some req => if len = req.pos then ConnectionState.Closing req.close else state
    | none => state
  (state1, { i with outbuf := i.outbuf.clear })

/-- `Inner::write_to_stream`.  In `Closing` the buffer is cleared and nothing
is written.  Otherwise the loop writes up to `writeLen` bytes; on would-block
it decrements `server_close_req.pos` by the bytes written and drains that
prefix (leaving `our_close_req` untouched, as the source does); on full
completion it reports `ServerClosedConnection` when the drain reached
`server_close_req.pos`, else moves to `Closing` when it reached
`our_close_req.pos`, and clears the buffer. -/
def Inner.write_to_stream (i : Inner) (state : ConnectionState)
    (oracle : List WriteRes) :
    Option (Except AError (ConnectionState × Inner)) :=
  if state.is_closing then
    some (.ok (state, { i with outbuf := i.outbuf.clear }))
  else
    let len := i.writeLen
    match writeLoop len 0 oracle with
    | none => none
    | some (m, .blocked k) =>
      let i1 := { i with heartbeats := HeartbeatTimers.recordTxN m i.heartbeats }
      let i2 := { i1 with
        server_close_req :=
          i1.server_close_req.map
            (fun (r : CloseRequest) => { r with pos := r.pos - k }) }
      some (.ok (state, { i2 with outbuf := i2.outbuf.drain_written k }))
    | some (_, .ioError) => some (.error (.mk .Io))
    | some (m, .completed) =>
      let i1 := { i with heartbeats := HeartbeatTimers.recordTxN m i.heartbeats }
      match i1.server_close_req with
      | some req =>
        if len = req.pos then
          some (.error (.mk (.ServerClosedConnection req.close.reply_code
            req.close.reply_text)))
        else some (.ok (i1.writeFinish state len))
      | none => some (.ok (i1.writeFinish state len))

/-- The `while let Some(kind) = timer.poll()` loop of
`Inner::process_heartbeat_timers`, written by structural recursion on the due
list (each `poll` consumes one due token; a reschedule from `fire` lands in
`scheduled`, never in `due`).  `none` models the panicking `expect` branches
of `fire_rx` / `fire_tx`. -/
def processHBLoop : List HeartbeatKind → Inner → Option (Except AError Inner)
  | [], i => some (.ok i)
  | kind :: rest, i =>
    let i0 := { i with heartbeats :=
      { i.heartbeats with timer := { i.heartbeats.timer with due := rest } } }
    match kind with
    | .Rx =>
      match i0.heartbeats.fire_rx with
      | none => none
      | some (.StillRunning, h1) =>
        processHBLoop rest { i0 with heartbeats := h1 }
      | some (.Expired, _) => some (.error (.mk .MissedServerHeartbeats))
    | .Tx =>
      match i0.heartbeats.fire_tx with
      | none => none
      | some (.StillRunning, h1) =>
        processHBLoop rest { i0 with heartbeats := h1 }
      | some (.Expired, h1) =>
        let i1 := { i0 with heartbeats := h1 }
        if i1.outbuf.is_empty then
          processHBLoop rest { i1 with outbuf := i1.outbuf.push_heartbeat }
        else
          processHBLoop rest i1

/-- `Inner::process_heartbeat_timers`. -/
def Inner.process_heartbeat_timers (i : Inner) : Option (Except AError Inner) :=
  processHBLoop i.heartbeats.timer.due i

/-- `EventLoop::run`: the reactor wrapper around `main_loop`, taking the
result the main loop returned together with the connection state at that
moment, and performing the single error rewrite of the source: an error in
`Secure` is chained inside `InvalidCredentials`. -/
def EventLoop.run (mainResult : Except AError Unit) (state : ConnectionState) :
    Except AError Unit :=
  match mainResult with
  | .ok () => .ok ()
  | .error err =>
    match state with
    | .Secure => .error (.context .InvalidCredentials err)
    | _ => .error err

/-- One configuration of the event loop: the handshake state and the shared
mutable context. -/
structure Sys where
  state : ConnectionState
  inner : Inner
deriving DecidableEq, Repr

/-- One observable step of the event loop: a socket-readable drain, a
socket-writable flush against a valid write oracle, the heartbeat-timer
handler, or the passage of time making one scheduled timeout due.  Steps that
return an error terminate the loop and yield no successor state. -/
inductive Step (enc : Enc) : Sys → Sys → Prop
  | read (a : Sys) (ev : ReadEvent) (s1 : ConnectionState) (i1 : Inner)
      (h : Inner.read_from_stream enc a.state a.inner ev = some (.ok (s1, i1))) :
      Step enc a ⟨s1, i1⟩
  | write (a : Sys) (oracle : List WriteRes) (s1 : ConnectionState) (i1 : Inner)
      (hv : oracleValid a.inner.outbuf.len a.inner.writeLen 0 oracle = true)
      (h : Inner.write_to_stream a.inner a.state oracle = some (.ok (s1, i1))) :
      Step enc a ⟨s1, i1⟩
  | hb (a : Sys) (i1 : Inner)
      (h : Inner.process_heartbeat_timers a.inner = some (.ok i1)) :
      Step enc a ⟨a.state, i1⟩
  | tick (a : Sys) (k : HeartbeatKind) (pre post : List HeartbeatKind)
      (h : a.inner.heartbeats.timer.scheduled = pre ++ k :: post) :
      Step enc a ⟨a.state, { a.inner with heartbeats :=
        { a.inner.heartbeats with timer :=
          { due := a.inner.heartbeats.timer.due ++ [k],
            scheduled := pre ++ post } } }⟩

/-- The states the event loop can be in, starting from `EventLoop::new`
(state `Start`, fresh `Inner`, default heartbeat timers). -/
def Reachable (enc : Enc) (opts : ConnectionOptions) : Sys → Prop :=
  Relation.ReflTransGen (Step enc)
    ⟨.Start, Inner.new opts HeartbeatTimers.default⟩

/-! Concrete instances used by witnesses and counterexamples. -/

/-- A numeric tag per method constructor, for the concrete encoder. -/
def tagOf : AMQPMethod → Nat
  | .Start _ => 1
  | .StartOk _ => 2
  | .Secure _ => 3
  | .SecureOk _ => 4
  | .Tune _ => 5
  | .TuneOk _ => 6
  | .Open => 7
  | .OpenOk => 8
  | .Close _ => 9
  | .CloseOk => 10

/-- A concrete total encoder producing three bytes per method frame. -/
def enc0 : Enc := fun ch m => some [ch, tagOf m, 0]

/-- Concrete client options: PLAIN auth, locale en_US, no channel-max
preference, frame-max 4096, heartbeat preference 0 (disabled). -/
def opts0 : ConnectionOptions := ⟨"PLAIN", "resp", "en_US", 0, 4096, some 0⟩

/-- The `Inner` produced by `EventLoop::new` with `opts0`. -/
def inn0 : Inner := Inner.new opts0 HeartbeatTimers.default

/-- C8: `run` returns exactly the result of the main loop except for one
rewrite: an error returned while the connection state is `Secure` is chained
inside `InvalidCredentials`; in every other state the error is returned
unchanged, and an `Ok` result is returned unchanged. -/
theorem c8_run_rewrite :
    ∀ (state : ConnectionState) (err : AError),
      (state = .Secure →
        EventLoop.run (.error err) state =
          .error (.context .InvalidCredentials err)) ∧
      (state ≠ .Secure → EventLoop.run (.error err) state = .error err) ∧
      EventLoop.run (.ok ()) state = .ok () := by
  intro state err
  refine ⟨?_, ?_, rfl⟩
  · rintro rfl; rfl
  · intro h; cases state <;> first | rfl | exact absurd rfl h

/-- C8 witness: an `UnexpectedSocketClose` from the main loop while in
`Secure` surfaces wrapped inside `InvalidCredentials`. -/
theorem c8_run_rewrite_witness :
    EventLoop.run (.error (.mk .UnexpectedSocketClose)) .Secure =
      .error (.context .InvalidCredentials (.mk .UnexpectedSocketClose)) :=
  (c8_run_rewrite .Secure (.mk .UnexpectedSocketClose)).1 rfl

/-- C5: in `Closing(close)` every inbound frame other than a channel-0
`close-ok` is discarded with `Ok` and neither the state nor `Inner` changes;
a channel-0 `close-ok` terminates the loop with `ClientClosedConnection`
carrying the pending close's reply code and text. -/
theorem c5_closing_discards :
    ∀ (enc : Enc) (close : Close) (i : Inner) (frame : AMQPFrame),
      (frame = .Method 0 (.Connection .CloseOk) →
        ConnectionState.process enc (.Closing close) i frame =
          some (.error (.mk (.ClientClosedConnection close.reply_code
            close.reply_text)))) ∧
      (frame ≠ .Method 0 (.Connection .CloseOk) →
        ConnectionState.process enc (.Closing close) i frame =
          some (.ok (.Closing close, i))) := by
  intro enc close i frame
  constructor
  · rintro rfl; rfl
  · intro h
    rcases frame with ⟨ch, cls⟩ | ch | ⟨ft, ch⟩ <;> try rfl
    rcases ch with _ | ch
    · rcases cls with m | cid
      · cases m <;> first | rfl | exact absurd rfl h
      · rfl
    · rfl

/-- C5 witness: in `Closing(200, ok)` a nonzero-channel heartbeat is
discarded and a channel-0 `close-ok` produces `ClientClosedConnection`. -/
theorem c5_closing_discards_witness :
    ConnectionState.process enc0 (.Closing ⟨200, "ok", 0, 0⟩) inn0
        (.Heartbeat 1) = some (.ok (.Closing ⟨200, "ok", 0, 0⟩, inn0)) ∧
    ConnectionState.process enc0 (.Closing ⟨200, "ok", 0, 0⟩) inn0
        (.Method 0 (.Connection .CloseOk)) =
      some (.error (.mk (.ClientClosedConnection 200 "ok"))) :=
  ⟨(c5_closing_discards enc0 ⟨200, "ok", 0, 0⟩ inn0 (.Heartbeat 1)).2
      (by decide),
   (c5_closing_discards enc0 ⟨200, "ok", 0, 0⟩ inn0
      (.Method 0 (.Connection .CloseOk))).1 rfl⟩

/-- C4: if `server_close_req` is set and the write loop completes with the
chosen write length equal to `server_close_req.pos` (no would-block
interrupts it), `write_to_stream` returns `ServerClosedConnection` carrying
that close's reply code and text, terminating the event loop. -/
theorem c4_server_close_terminates :
    ∀ (i : Inner) (state : ConnectionState) (oracle : List WriteRes)
      (req : CloseRequest) (m : Nat),
      state.is_closing = false →
      i.server_close_req = some req →
      i.writeLen = req.pos →
      writeLoop i.writeLen 0 oracle = some (m, .completed) →
      i.write_to_stream state oracle =
        some (.error (.mk (.ServerClosedConnection req.close.reply_code
          req.close.reply_text))) := by
  intro i state oracle req m h1 h2 h3 h4
  rw [h3] at h4
  unfold Inner.write_to_stream
  simp only [h1, Bool.false_eq_true, if_false, h2, h3, h4, if_pos]

/-- Concrete `Inner` with a pending server close request at offset 3. -/
def innC4 : Inner :=
  { inn0 with
    outbuf := ⟨[0, 10, 0]⟩
    server_close_req := some ⟨⟨200, "ok", 0, 0⟩, 3⟩ }

/-- C4 witness: a pending server close at offset 3 with a full 3-byte write
terminates with `ServerClosedConnection(200, ok)`. -/
theorem c4_server_close_terminates_witness :
    Inner.write_to_stream innC4 .Steady [.ok 3] =
      some (.error (.mk (.ServerClosedConnection 200 "ok"))) :=
  c4_server_close_terminates innC4 .Steady [.ok 3] ⟨⟨200, "ok", 0, 0⟩, 3⟩ 1
    rfl rfl (by decide) (by decide)

/-- C6: both close-request setters are idempotent after the first effective
call: when a request is already set the setter returns `Ok` and leaves
`Inner` unchanged; the first call on an unset request enqueues exactly one
`close-ok` (resp. `close`) frame, records the request at the new end of the
buffer, and a subsequent call leaves the result unchanged. -/
theorem c6_close_req_idempotent :
    ∀ (enc : Enc) (i : Inner) (c c2 : Close) (bs : List Nat) (r : CloseRequest),
      (i.server_close_req = some r → i.set_server_close_req enc c = .ok i) ∧
      (i.our_close_req = some r → i.set_our_close_req enc c = .ok i) ∧
      (i.server_close_req = none → enc 0 .CloseOk = some bs →
        ∃ i1, i.set_server_close_req enc c = .ok i1 ∧
          i1.outbuf.bytes = i.outbuf.bytes ++ bs ∧
          i1.server_close_req = some ⟨c, i.outbuf.len + bs.length⟩ ∧
          i1.set_server_close_req enc c2 = .ok i1) ∧
      (i.our_close_req = none → enc 0 (.Close c) = some bs →
        ∃ i1, i.set_our_close_req enc c = .ok i1 ∧
          i1.outbuf.bytes = i.outbuf.bytes ++ bs ∧
          i1.our_close_req = some ⟨c, i.outbuf.len + bs.length⟩ ∧
          i1.set_our_close_req enc c2 = .ok i1) := by
  intro enc i c c2 bs r
  refine ⟨?_, ?_, ?_, ?_⟩
  · intro h
    unfold Inner.set_server_close_req
    simp [h]
  · intro h
    unfold Inner.set_our_close_req
    simp [h]
  · intro h hbs
    have hset : i.set_server_close_req enc c =
        .ok { i with
          outbuf := ⟨i.outbuf.bytes ++ bs⟩
          server_close_req := some ⟨c, (i.outbuf.bytes ++ bs).length⟩ } := by
      unfold Inner.set_server_close_req OutputBuffer.push_method
      simp [h, hbs, OutputBuffer.len]
    refine ⟨_, hset, rfl, ?_, ?_⟩
    · simp [OutputBuffer.len]
    · unfold Inner.set_server_close_req
      simp
  · intro h hbs
    have hset : i.set_our_close_req enc c =
        .ok { i with
          outbuf := ⟨i.outbuf.bytes ++ bs⟩
          our_close_req := some ⟨c, (i.outbuf.bytes ++ bs).length⟩ } := by
      unfold Inner.set_our_close_req OutputBuffer.push_method
      simp [h, hbs, OutputBuffer.len]
    refine ⟨_, hset, rfl, ?_, ?_⟩
    · simp [OutputBuffer.len]
    · unfold Inner.set_our_close_req
      simp

/-- C6 witness: with the concrete encoder, the first `set_server_close_req`
on a fresh `Inner` enqueues one `close-ok` frame and a second call is a
no-op. -/
theorem c6_close_req_idempotent_witness :
    ∃ i1, inn0.set_server_close_req enc0 ⟨200, "ok", 0, 0⟩ = .ok i1 ∧
      i1.outbuf.bytes = inn0.outbuf.bytes ++ [0, 10, 0] ∧
      i1.server_close_req = some ⟨⟨200, "ok", 0, 0⟩, inn0.outbuf.len + 3⟩ ∧
      i1.set_server_close_req enc0 ⟨320, "shutdown", 0, 0⟩ = .ok i1 :=
  (c6_close_req_idempotent enc0 inn0 ⟨200, "ok", 0, 0⟩ ⟨320, "shutdown", 0, 0⟩
    [0, 10, 0] ⟨⟨200, "ok", 0, 0⟩, 0⟩).2.2.1 rfl rfl

/-- C7: when the tx heartbeat timer fires in state `Expired`, exactly one
heartbeat frame is appended to `outbuf` if it is empty, and otherwise
`outbuf` is left unchanged with no error (only a warning is logged); a tx
firing never terminates the loop. -/
theorem c7_tx_expired :
    (∀ (i : Inner) (hb : Heartbeat),
      i.heartbeats.timer.due = [.Tx] →
      i.heartbeats.tx = some hb →
      hb.activityCount = 0 →
      ∃ i1, i.process_heartbeat_timers = some (.ok i1) ∧
        i1.outbuf.bytes =
          (if i.outbuf.bytes.isEmpty then heartbeatFrame
           else i.outbuf.bytes)) ∧
    (∀ (due : List HeartbeatKind) (i : Inner),
      (∀ k ∈ due, k = HeartbeatKind.Tx) →
      i.heartbeats.tx.isSome →
      ∀ e, processHBLoop due i ≠ some (.error e)) := by
  constructor
  · intro i hb hdue htx hcnt
    unfold Inner.process_heartbeat_timers
    rw [hdue]
    simp only [processHBLoop, HeartbeatTimers.fire_tx, htx, Heartbeat.fire,
      hcnt, gt_iff_lt, Nat.lt_irrefl, if_false, OutputBuffer.is_empty,
      OutputBuffer.push_heartbeat]
    by_cases hE : i.outbuf.bytes.isEmpty
    · have hnil : i.outbuf.bytes = [] := by simpa using hE
      simp [hE, hnil]
    · simp [hE]
  · intro due
    induction due with
    | nil =>
      intro i hall hsome e
      simp [processHBLoop]
    | cons k rest ih =>
      intro i hall hsome e
      have hk : k = HeartbeatKind.Tx := hall k (by simp)
      subst hk
      obtain ⟨hb, htx⟩ := Option.isSome_iff_exists.mp hsome
      by_cases hc : hb.activityCount > 0
      · simp only [processHBLoop, HeartbeatTimers.fire_tx, htx,
          Heartbeat.fire, if_pos hc]
        exact ih _ (fun k hk => hall k (by simp [hk])) (by simp) e
      · simp only [processHBLoop, HeartbeatTimers.fire_tx, htx,
          Heartbeat.fire, if_neg hc]
        split
        · exact ih _ (fun k hk => hall k (by simp [hk])) (by simp) e
        · exact ih _ (fun k hk => hall k (by simp [hk])) (by simp) e

/-- Concrete `Inner` with started heartbeats, a due tx token and a non-empty
output buffer. -/
def innC7 : Inner :=
  { inn0 with
    outbuf := ⟨[1]⟩
    heartbeats := ⟨⟨[.Tx], []⟩, some ⟨10, 0⟩, some ⟨5, 0⟩⟩ }

/-- C7 witness: a due expired tx fire with queued data returns `Ok` and
leaves `outbuf` unchanged. -/
theorem c7_tx_expired_witness :
    ∃ i1, innC7.process_heartbeat_timers = some (.ok i1) ∧
      i1.outbuf.bytes =
        (if innC7.outbuf.bytes.isEmpty then heartbeatFrame
         else innC7.outbuf.bytes) :=
  c7_tx_expired.1 innC7 ⟨5, 0⟩ rfl rfl rfl

/-- Helper: `set_server_close_req` can only fail with
`InternalSerializationError` (from the frame encoder). -/
theorem set_server_close_req_error {enc : Enc} {i : Inner} {c : Close}
    {e : AError} (h : i.set_server_close_req enc c = .error e) :
    e = .mk .InternalSerializationError := by
  unfold Inner.set_server_close_req OutputBuffer.push_method at h
  by_cases hs : i.server_close_req.isSome
  · simp [hs] at h
  · simp only [hs, Bool.false_eq_true, if_false] at h
    cases henc : enc 0 .CloseOk with
    | none => rw [henc] at h; simp_all
    | some bs => rw [henc] at h; simp_all

/-- Helper: `set_our_close_req` can only fail with
`InternalSerializationError` (from the frame encoder). -/
theorem set_our_close_req_error {enc : Enc} {i : Inner} {c : Close}
    {e : AError} (h : i.set_our_close_req enc c = .error e) :
    e = .mk .InternalSerializationError := by
  unfold Inner.set_our_close_req OutputBuffer.push_method at h
  by_cases hs : i.our_close_req.isSome
  · simp [hs] at h
  · simp only [hs, Bool.false_eq_true, if_false] at h
    cases henc : enc 0 (.Close c) with
    | none => rw [henc] at h; simp_all
    | some bs => rw [henc] at h; simp_all

/-- Helper: every frame either is a channel-0 `connection.close` or differs
from all of them. -/
theorem frame_close_cases (frame : AMQPFrame) :
    (∃ c, frame = .Method 0 (.Connection (.Close c))) ∨
    (∀ c, frame ≠ .Method 0 (.Connection (.Close c))) := by
  rcases frame with ⟨ch, cls⟩ | ch | ⟨ft, ch⟩
  · rcases ch with _ | ch
    · rcases cls with m | cid
      · cases m <;>
          first
          | exact .inl ⟨_, rfl⟩
          | (right; intro c h; simp at h)
      · right; intro c h; simp at h
    · right; intro c h; simp at h
  · right; intro c h; simp at h
  · right; intro c h; simp at h

/-- C10: in `Steady` the state machine never produces a fatal protocol error
of its own: a channel-0 `connection.close` is handled by
`set_server_close_req`, every other frame is handled by `set_our_close_req`
with reply code NOT_IMPLEMENTED, the state remains `Steady` on every `Ok`
result, the only possible error is `InternalSerializationError`, and no panic
is possible. -/
theorem c10_steady_no_fatal :
    ∀ (enc : Enc) (i : Inner) (frame : AMQPFrame),
      (∀ c, frame = .Method 0 (.Connection (.Close c)) →
        ConnectionState.process enc .Steady i frame =
          some (match i.set_server_close_req enc c with
                | .ok i1 => .ok (.Steady, i1)
                | .error e => .error e)) ∧
      ((∀ c, frame ≠ .Method 0 (.Connection (.Close c))) →
        ConnectionState.process enc .Steady i frame =
          some (match i.set_our_close_req enc
              ⟨notImplementedId, frameText frame, 0, 0⟩ with
                | .ok i1 => .ok (.Steady, i1)
                | .error e => .error e)) ∧
      (∀ s1 i1, ConnectionState.process enc .Steady i frame =
          some (.ok (s1, i1)) → s1 = .Steady) ∧
      (∀ e, ConnectionState.process enc .Steady i frame = some (.error e) →
        e = .mk .InternalSerializationError) ∧
      ConnectionState.process enc .Steady i frame ≠ none := by
  intro enc i frame
  have part1 : ∀ c, frame = .Method 0 (.Connection (.Close c)) →
      ConnectionState.process enc .Steady i frame =
        some (match i.set_server_close_req enc c with
              | .ok i1 => .ok (.Steady, i1)
              | .error e => .error e) := by
    rintro c rfl
    cases h : i.set_server_close_req enc c <;>
      simp [ConnectionState.process, h]
  have part2 : (∀ c, frame ≠ .Method 0 (.Connection (.Close c))) →
      ConnectionState.process enc .Steady i frame =
        some (match i.set_our_close_req enc
            ⟨notImplementedId, frameText frame, 0, 0⟩ with
              | .ok i1 => .ok (.Steady, i1)
              | .error e => .error e) := by
    intro hne
    rcases frame with ⟨ch, cls⟩ | ch | ⟨ft, ch⟩
    · rcases ch with _ | ch
      · rcases cls with m | cid
        · cases m <;>
            first
            | exact absurd rfl (hne _)
            | (cases h : i.set_our_close_req enc _ <;>
                simp [ConnectionState.process, h])
        · cases h : i.set_our_close_req enc _ <;>
            simp [ConnectionState.process, h]
      · cases h : i.set_our_close_req enc _ <;>
          simp [ConnectionState.process, h]
    · cases h : i.set_our_close_req enc _ <;>
        simp [ConnectionState.process, h]
    · cases h : i.set_our_close_req enc _ <;>
        simp [ConnectionState.process, h]
  refine ⟨part1, part2, ?_, ?_, ?_⟩
  · intro s1 i1 hres
    rcases frame_close_cases frame with ⟨c, rfl⟩ | hne
    · rw [part1 c rfl] at hres
      cases h : i.set_server_close_req enc c <;> rw [h] at hres <;>
        simp_all
    · rw [part2 hne] at hres
      cases h : i.set_our_close_req enc _ <;> rw [h] at hres <;> simp_all
  · intro e hres
    rcases frame_close_cases frame with ⟨c, rfl⟩ | hne
    · rw [part1 c rfl] at hres
      cases h : i.set_server_close_req enc c <;> rw [h] at hres <;>
        simp_all
      exact set_server_close_req_error h
    · rw [part2 hne] at hres
      cases h : i.set_our_close_req enc _ <;> rw [h] at hres <;> simp_all
      exact set_our_close_req_error h
  · rcases frame_close_cases frame with ⟨c, rfl⟩ | hne
    · rw [part1 c rfl]; simp
    · rw [part2 hne]; simp

/-- C10 witness: a channel-0 `connection.close` in `Steady` is routed to
`set_server_close_req`. -/
theorem c10_steady_no_fatal_witness :
    ConnectionState.process enc0 .Steady inn0
        (.Method 0 (.Connection (.Close ⟨200, "ok", 0, 0⟩))) =
      some (match inn0.set_server_close_req enc0 ⟨200, "ok", 0, 0⟩ with
            | .ok i1 => .ok (.Steady, i1)
            | .error e => .error e) :=
  (c10_steady_no_fatal enc0 inn0
    (.Method 0 (.Connection (.Close ⟨200, "ok", 0, 0⟩)))).1
    ⟨200, "ok", 0, 0⟩ rfl

/-- C3: in `Secure`, a channel-0 `connection.secure` yields
`SaslSecureNotSupported`; a channel-0 `connection.tune` is reprocessed
exactly as in state `Tune`, which (when negotiation succeeds and the frames
serialize) starts the heartbeat timers at the negotiated interval for a
nonzero interval, enqueues `tune-ok` then `connection.open` in that order,
and ends in `Open`; any other frame yields `HandshakeWrongServerFrame`. -/
theorem c3_secure_process :
    ∀ (enc : Enc) (i : Inner),
      (∀ ch, ConnectionState.process enc .Secure i
          (.Method 0 (.Connection (.Secure ch))) =
        some (.error (.mk .SaslSecureNotSupported))) ∧
      (∀ t, ConnectionState.process enc .Secure i
          (.Method 0 (.Connection (.Tune t))) =
        ConnectionState.process enc .Tune i
          (.Method 0 (.Connection (.Tune t)))) ∧
      (∀ t tok bs1 bs2,
        i.options.make_tune_ok t = .ok tok →
        i.heartbeats.rx = none →
        i.heartbeats.tx = none →
        enc 0 (.TuneOk tok) = some bs1 →
        enc 0 .Open = some bs2 →
        ∃ i3, ConnectionState.process enc .Secure i
            (.Method 0 (.Connection (.Tune t))) = some (.ok (.Open, i3)) ∧
          i3.outbuf.bytes = i.outbuf.bytes ++ bs1 ++ bs2 ∧
          (tok.heartbeat ≠ 0 →
            i3.heartbeats.rx =
              some ⟨tok.heartbeat * MAX_MISSED_SERVER_HEARTBEATS, 0⟩ ∧
            i3.heartbeats.tx = some ⟨tok.heartbeat, 0⟩ ∧
            i3.heartbeats.timer.scheduled =
              i.heartbeats.timer.scheduled ++ [.Rx, .Tx]) ∧
          (tok.heartbeat = 0 → i3.heartbeats = i.heartbeats)) ∧
      (∀ frame,
        (∀ ch, frame ≠ .Method 0 (.Connection (.Secure ch))) →
        (∀ t, frame ≠ .Method 0 (.Connection (.Tune t))) →
        ConnectionState.process enc .Secure i frame =
          some (.error (.mk (.HandshakeWrongServerFrame
            "secure or tune" frame)))) := by
  intro enc i
  refine ⟨fun ch => rfl, fun t => rfl, ?_, ?_⟩
  · intro t tok bs1 bs2 htok hrx htx hbs1 hbs2
    by_cases h0 : tok.heartbeat = 0
    · refine ⟨{ i with outbuf := ⟨i.outbuf.bytes ++ bs1 ++ bs2⟩ },
        ?_, rfl, fun hne => absurd h0 hne, fun _ => rfl⟩
      show processTuneFrame enc i (.Method 0 (.Connection (.Tune t))) = _
      unfold processTuneFrame Inner.start_heartbeats Inner.push_method
        OutputBuffer.push_method ConnectionOptions.make_open
      simp [htok, h0, hbs1, hbs2]
    · refine ⟨{ i with
        outbuf := ⟨i.outbuf.bytes ++ bs1 ++ bs2⟩
        heartbeats :=
          ⟨(i.heartbeats.timer.set_timeout .Rx).set_timeout .Tx,
            some ⟨tok.heartbeat * MAX_MISSED_SERVER_HEARTBEATS, 0⟩,
            some ⟨tok.heartbeat, 0⟩⟩ }, ?_, rfl,
        fun _ => ⟨rfl, rfl, ?_⟩, fun h => absurd h h0⟩
      · show processTuneFrame enc i (.Method 0 (.Connection (.Tune t))) = _
        unfold processTuneFrame Inner.start_heartbeats Inner.push_method
          OutputBuffer.push_method HeartbeatTimers.start Heartbeat.start
          ConnectionOptions.make_open
        simp [htok, hbs1, hbs2, hrx, htx, Nat.pos_of_ne_zero h0]
      · simp [TimerWheel.set_timeout, List.append_assoc]
  · intro frame hS hT
    rcases frame with ⟨ch, cls⟩ | ch | ⟨ft, ch⟩ <;> try rfl
    rcases ch with _ | ch
    · rcases cls with m | cid
      · cases m <;>
          first
          | rfl
          | exact absurd rfl (hS _)
          | exact absurd rfl (hT _)
      · rfl
    · rfl

/-- Options with a client heartbeat preference of 7 seconds. -/
def optsH : ConnectionOptions := ⟨"PLAIN", "resp", "en_US", 0, 4096, some 7⟩

/-- Fresh `Inner` for `optsH`. -/
def innH : Inner := Inner.new optsH HeartbeatTimers.default

/-- C3 witness: tuning in `Secure` with server tune (0, 4096, 60) under a
client preference of 7 starts heartbeats at 7 seconds, enqueues `tune-ok`
then `open`, and ends in `Open`. -/
theorem c3_secure_process_witness :
    ∃ i3, ConnectionState.process enc0 .Secure innH
        (.Method 0 (.Connection (.Tune ⟨0, 4096, 60⟩))) =
        some (.ok (.Open, i3)) ∧
      i3.outbuf.bytes = innH.outbuf.bytes ++ [0, 6, 0] ++ [0, 7, 0] ∧
      ((7 : Nat) ≠ 0 →
        i3.heartbeats.rx = some ⟨7 * MAX_MISSED_SERVER_HEARTBEATS, 0⟩ ∧
        i3.heartbeats.tx = some ⟨7, 0⟩ ∧
        i3.heartbeats.timer.scheduled =
          innH.heartbeats.timer.scheduled ++ [.Rx, .Tx]) ∧
      ((7 : Nat) = 0 → i3.heartbeats = innH.heartbeats) :=
  (c3_secure_process enc0 innH).2.2.1 ⟨0, 4096, 60⟩ ⟨0, 4096, 7⟩
    [0, 6, 0] [0, 7, 0] rfl rfl rfl rfl rfl

/-- `Inner` with started heartbeat timers (rx interval 10, tx interval 5) and
no recorded activity. -/
def innRx : Inner :=
  { inn0 with heartbeats := ⟨⟨[], []⟩, some ⟨10, 0⟩, some ⟨5, 0⟩⟩ }

/-- `innRx` after exactly one rx-activity recording. -/
def innRx1 : Inner :=
  { inn0 with heartbeats := ⟨⟨[], []⟩, some ⟨10, 1⟩, some ⟨5, 0⟩⟩ }

/-- C2 counterexample: a single drain performing two socket reads of one byte
each (no complete frame decoded) records rx-activity once, not once per
socket read: the rx activity count goes from 0 to 1, not to 2. -/
theorem c2_activity_counterexample :
    Inner.read_from_stream enc0 .Steady innRx (.ok [1, 1] []) =
      some (.ok (.Steady, innRx1)) ∧
    (List.filter (fun n => decide (0 < n)) [1, 1]).length = 2 ∧
    innRx1.heartbeats.rx = some ⟨10, 1⟩ ∧
    innRx1.heartbeats.rx ≠ some ⟨10, 2⟩ := by
  refine ⟨rfl, by decide, by decide, by decide⟩

/-- C2 (corrected): tx-activity is recorded exactly once per successful
socket write — the write loop performs exactly as many recordings as
successful writes it consumes, and `n` recordings add exactly `n` to the tx
activity count; rx-activity is recorded exactly once per `read_from_stream`
call whose socket reads consumed at least one byte in total (not once per
individual socket read), and not at all when the total is zero. -/
theorem c2_activity_amended :
    (∀ (len : Nat) (oracle : List WriteRes) (pos m : Nat) (o : WriteOutcome),
      writeLoop len pos oracle = some (m, o) →
      m = writeOkCount len pos oracle) ∧
    (∀ (n : Nat) (h : HeartbeatTimers) (hb : Heartbeat),
      h.tx = some hb →
      (HeartbeatTimers.recordTxN n h).tx =
        some ⟨hb.interval, hb.activityCount + n⟩) ∧
    (∀ (enc : Enc) (s : ConnectionState) (i : Inner) (reads : List Nat)
        (frames : List AMQPFrame) (s1 : ConnectionState) (i1 : Inner),
      dispatchFrames enc frames s i = some (.ok (s1, i1)) →
      Inner.read_from_stream enc s i (.ok reads frames) =
        some (.ok (s1, if reads.sum > 0 then i1.record_rx_activity else i1))) ∧
    (∀ (h : HeartbeatTimers) (hb : Heartbeat),
      h.rx = some hb →
      h.record_rx_activity.rx = some ⟨hb.interval, hb.activityCount + 1⟩) := by
  refine ⟨?_, ?_, ?_, ?_⟩
  · intro len oracle
    induction oracle with
    | nil =>
      intro pos m o h
      simp only [writeLoop] at h
      by_cases hp : pos < len
      · rw [if_pos hp] at h
        exact Option.noConfusion h
      · rw [if_neg hp] at h
        injection h with h1
        injection h1 with h2 h3
        simp [writeOkCount, ← h2]
    | cons r rest ih =>
      intro pos m o h
      cases r with
      | ok n =>
        simp only [writeLoop] at h
        by_cases hp : pos < len
        · rw [if_pos hp] at h
          cases hrec : writeLoop len (pos + n) rest with
          | none => rw [hrec] at h; exact Option.noConfusion h
          | some p =>
            rw [hrec, Option.map_some'] at h
            injection h with h1
            injection h1 with h2 h3
            simp only [writeOkCount, if_pos hp]
            rw [← h2, ih (pos + n) p.1 p.2 (by rw [hrec])]
        · rw [if_neg hp] at h
          injection h with h1
          injection h1 with h2 h3
          simp [writeOkCount, if_neg hp, ← h2]
      | wouldBlock =>
        simp only [writeLoop] at h
        by_cases hp : pos < len <;>
          [rw [if_pos hp] at h; rw [if_neg hp] at h] <;>
        · injection h with h1
          injection h1 with h2 h3
          simp [writeOkCount, ← h2]
      | ioErr =>
        simp only [writeLoop] at h
        by_cases hp : pos < len <;>
          [rw [if_pos hp] at h; rw [if_neg hp] at h] <;>
        · injection h with h1
          injection h1 with h2 h3
          simp [writeOkCount, ← h2]
  · intro n
    induction n with
    | zero =>
      intro h hb htx
      simpa [HeartbeatTimers.recordTxN] using htx
    | succ n ih =>
      intro h hb htx
      have step : h.record_tx_activity.tx =
          some ⟨hb.interval, hb.activityCount + 1⟩ := by
        unfold HeartbeatTimers.record_tx_activity
        rw [htx]
        rfl
      have := ih h.record_tx_activity ⟨hb.interval, hb.activityCount + 1⟩ step
      unfold HeartbeatTimers.recordTxN
      rw [this]
      have harith : hb.activityCount + 1 + n = hb.activityCount + (n + 1) := by
        omega
      rw [harith]
  · intro enc s i reads frames s1 i1 hdisp
    by_cases h : reads.sum > 0 <;>
      simp [Inner.read_from_stream, hdisp, h]
  · intro h hb hrx
    unfold HeartbeatTimers.record_rx_activity
    rw [hrx]
    rfl

/-- C2 witness: with write length 3 and a one-byte write followed by
would-block, the loop reports one tx recording, equal to the count of
successful writes it consumed. -/
theorem c2_activity_amended_witness :
    (1 : Nat) = writeOkCount 3 0 [.ok 1, .wouldBlock] :=
  c2_activity_amended.1 3 [.ok 1, .wouldBlock] 0 1 (.blocked 1) (by decide)

/-- The close-offset bound of the spec restricted to `server_close_req`. -/
def serverBound (i : Inner) : Prop :=
  ∀ r, i.server_close_req = some r → r.pos ≤ i.outbuf.len

/-- Inductive invariant of the heartbeat timers: the two directions are
started together, and no token is on the wheel before they are started. -/
def InvHB (h : HeartbeatTimers) : Prop :=
  (h.rx.isSome ↔ h.tx.isSome) ∧
  (h.rx = none → h.timer.due = [] ∧ h.timer.scheduled = [])

/-- The inductive system invariant: outside `Closing` the server close
request offset is within the buffer, and the heartbeat invariant holds. -/
def SysInv (sys : Sys) : Prop :=
  (sys.state.is_closing = false → serverBound sys.inner) ∧
  InvHB sys.inner.heartbeats

/-- `push_method` leaves close requests and heartbeats alone and only grows
the buffer. -/
theorem push_method_facts {enc : Enc} {i : Inner} {ch : Nat} {m : AMQPMethod}
    {i1 : Inner} (h : Inner.push_method enc i ch m = .ok i1) :
    i1.server_close_req = i.server_close_req ∧
    i1.our_close_req = i.our_close_req ∧
    i1.heartbeats = i.heartbeats ∧
    i.outbuf.len ≤ i1.outbuf.len := by
  unfold Inner.push_method OutputBuffer.push_method at h
  cases henc : enc ch m with
  | none => rw [henc] at h; exact Except.noConfusion h
  | some bs =>
    rw [henc] at h
    injection h with h1
    subst h1
    exact ⟨rfl, rfl, rfl, by simp [OutputBuffer.len]⟩

/-- `set_server_close_req` preserves the server close bound, leaves the
other request and the heartbeats alone, and only grows the buffer. -/
theorem set_server_facts {enc : Enc} {i : Inner} {c : Close} {i1 : Inner}
    (h : Inner.set_server_close_req enc i c = .ok i1) :
    (serverBound i → serverBound i1) ∧
    i1.our_close_req = i.our_close_req ∧
    i1.heartbeats = i.heartbeats := by
  unfold Inner.set_server_close_req at h
  by_cases hs : i.server_close_req.isSome
  · rw [if_pos hs] at h
    injection h with h1
    subst h1
    exact ⟨id, rfl, rfl⟩
  · rw [if_neg hs] at h
    unfold OutputBuffer.push_method at h
    cases henc : enc 0 .CloseOk with
    | none => rw [henc] at h; exact Except.noConfusion h
    | some bs =>
      rw [henc] at h
      injection h with h1
      subst h1
      refine ⟨?_, rfl, rfl⟩
      intro _ r hr
      cases hr
      exact Nat.le_refl _

/-- `set_our_close_req` leaves the server request and the heartbeats alone
and only grows the buffer. -/
theorem set_our_facts {enc : Enc} {i : Inner} {c : Close} {i1 : Inner}
    (h : Inner.set_our_close_req enc i c = .ok i1) :
    i1.server_close_req = i.server_close_req ∧
    i1.heartbeats = i.heartbeats ∧
    i.outbuf.len ≤ i1.outbuf.len := by
  unfold Inner.set_our_close_req at h
  by_cases hs : i.our_close_req.isSome
  · rw [if_pos hs] at h
    injection h with h1
    subst h1
    exact ⟨rfl, rfl, Nat.le_refl _⟩
  · rw [if_neg hs] at h
    unfold OutputBuffer.push_method at h
    cases henc : enc 0 (.Close c) with
    | none => rw [henc] at h; exact Except.noConfusion h
    | some bs =>
      rw [henc] at h
      injection h with h1
      subst h1
      exact ⟨rfl, rfl, by simp [OutputBuffer.len]⟩

/-- `start_heartbeats` leaves the buffer and close requests alone and
preserves the heartbeat invariant. -/
theorem start_heartbeats_facts {i : Inner} {n : Nat} {i1 : Inner}
    (h : Inner.start_heartbeats i n = some i1) :
    i1.outbuf = i.outbuf ∧
    i1.server_close_req = i.server_close_req ∧
    i1.our_close_req = i.our_close_req ∧
    (InvHB i.heartbeats → InvHB i1.heartbeats) := by
  unfold Inner.start_heartbeats at h
  by_cases hn : n > 0
  · rw [if_pos hn] at h
    unfold HeartbeatTimers.start at h
    by_cases hs : (i.heartbeats.rx.isSome || i.heartbeats.tx.isSome : Bool)
    · rw [if_pos hs] at h
      exact Option.noConfusion h
    · rw [if_neg hs] at h
      injection h with h1
      subst h1
      refine ⟨rfl, rfl, rfl, fun _ => ⟨by simp [Heartbeat.start], ?_⟩⟩
      intro hnone
      simp [Heartbeat.start] at hnone
  · rw [if_neg hn] at h
    injection h with h1
    subst h1
    exact ⟨rfl, rfl, rfl, id⟩

/-- Recording rx activity preserves the heartbeat invariant. -/
theorem record_rx_invHB {h : HeartbeatTimers} (hi : InvHB h) :
    InvHB h.record_rx_activity := by
  unfold HeartbeatTimers.record_rx_activity
  cases hrx : h.rx with
  | none => exact hi
  | some hb =>
    have htx : h.tx.isSome = true := hi.1.mp (by simp [hrx])
    refine ⟨by simp [htx], ?_⟩
    intro hnone
    simp at hnone

/-- Recording tx activity changes only the tx activity count. -/
theorem record_tx_parts (h : HeartbeatTimers) :
    h.record_tx_activity.rx = h.rx ∧
    h.record_tx_activity.tx.isSome = h.tx.isSome ∧
    h.record_tx_activity.timer = h.timer := by
  unfold HeartbeatTimers.record_tx_activity
  cases htx : h.tx with
  | none => exact ⟨rfl, by simp [htx], rfl⟩
  | some hb => exact ⟨rfl, by simp [htx], rfl⟩

/-- Iterated tx recording changes only the tx activity count. -/
theorem recordTxN_parts (n : Nat) :
    ∀ (h : HeartbeatTimers),
      (HeartbeatTimers.recordTxN n h).rx = h.rx ∧
      (HeartbeatTimers.recordTxN n h).tx.isSome = h.tx.isSome ∧
      (HeartbeatTimers.recordTxN n h).timer = h.timer := by
  induction n with
  | zero => intro h; exact ⟨rfl, rfl, rfl⟩
  | succ n ih =>
    intro h
    obtain ⟨p1, p2, p3⟩ := ih h.record_tx_activity
    obtain ⟨q1, q2, q3⟩ := record_tx_parts h
    exact ⟨p1.trans q1, p2.trans q2, p3.trans q3⟩

/-- Iterated tx recording preserves the heartbeat invariant. -/
theorem recordTxN_invHB {n : Nat} {h : HeartbeatTimers} (hi : InvHB h) :
    InvHB (HeartbeatTimers.recordTxN n h) := by
  obtain ⟨p1, p2, p3⟩ := recordTxN_parts n h
  constructor
  · rw [p1, p2]; exact hi.1
  · intro hn
    rw [p1] at hn
    rw [p3]
    exact hi.2 hn

/-- The `Tune` arm of `process` preserves the server close bound, the server
request, the heartbeat invariant, and ends in `Open`. -/
theorem processTune_facts {enc : Enc} {i : Inner} {frame : AMQPFrame}
    {s1 : ConnectionState} {i1 : Inner}
    (h : processTuneFrame enc i frame = some (.ok (s1, i1))) :
    (serverBound i → serverBound i1) ∧ s1.is_closing = false ∧
    (InvHB i.heartbeats → InvHB i1.heartbeats) := by
  unfold processTuneFrame at h
  split at h
  · split at h
    · simp at h
    · rename_i tok hmk
      split at h
      · exact Option.noConfusion h
      · rename_i iA hsh
        split at h
        · simp at h
        · rename_i iB hp1
          split at h
          · simp at h
          · rename_i iC hp2
            injection h with h1
            injection h1 with h2
            injection h2 with hsEq hiEq
            subst hsEq
            subst hiEq
            obtain ⟨a1, a2, _, a4⟩ := start_heartbeats_facts hsh
            obtain ⟨b1, _, b3, b4⟩ := push_method_facts hp1
            obtain ⟨c1, _, c3, c4⟩ := push_method_facts hp2
            refine ⟨?_, rfl, ?_⟩
            · intro hb r hr
              rw [c1, b1, a2] at hr
              calc r.pos ≤ i.outbuf.len := hb r hr
                _ = iA.outbuf.len := by rw [a1]
                _ ≤ iB.outbuf.len := b4
                _ ≤ iC.outbuf.len := c4
            · intro hi
              rw [c3, b3]
              exact a4 hi
  · simp at h

/-- `ConnectionState::process` preserves the server close bound and the
heartbeat invariant, and never enters or leaves `Closing`. -/
theorem process_facts {enc : Enc} {s : ConnectionState} {i : Inner}
    {frame : AMQPFrame} {s1 : ConnectionState} {i1 : Inner}
    (h : ConnectionState.process enc s i frame = some (.ok (s1, i1))) :
    (serverBound i → serverBound i1) ∧ s1.is_closing = s.is_closing ∧
    (InvHB i.heartbeats → InvHB i1.heartbeats) := by
  cases s with
  | Start =>
    simp only [ConnectionState.process] at h
    split at h
    · split at h
      · simp at h
      · rename_i sok hmk
        split at h
        · simp at h
        · rename_i iA hp
          injection h with h1
          injection h1 with h2
          injection h2 with hsEq hiEq
          subst hsEq
          subst hiEq
          obtain ⟨b1, _, b3, b4⟩ := push_method_facts hp
          refine ⟨?_, rfl, ?_⟩
          · intro hb r hr
            rw [b1] at hr
            exact le_trans (hb r hr) b4
          · intro hi; rw [b3]; exact hi
    · simp at h
  | Secure =>
    simp only [ConnectionState.process] at h
    split at h
    · simp at h
    · obtain ⟨f1, f2, f3⟩ := processTune_facts h
      exact ⟨f1, f2, f3⟩
    · simp at h
  | Tune =>
    simp only [ConnectionState.process] at h
    obtain ⟨f1, f2, f3⟩ := processTune_facts h
    exact ⟨f1, f2, f3⟩
  | Open =>
    simp only [ConnectionState.process] at h
    split at h
    · injection h with h1
      injection h1 with h2
      injection h2 with hsEq hiEq
      subst hsEq
      subst hiEq
      exact ⟨id, rfl, id⟩
    · rename_i close
      split at h
      · simp at h
      · rename_i iA hset
        injection h with h1
        injection h1 with h2
        injection h2 with hsEq hiEq
        subst hsEq
        subst hiEq
        obtain ⟨f1, _, f3⟩ := set_server_facts hset
        exact ⟨f1, rfl, by rw [f3]; exact id⟩
    · simp at h
  | Steady =>
    simp only [ConnectionState.process] at h
    split at h
    · rename_i close
      split at h
      · simp at h
      · rename_i iA hset
        injection h with h1
        injection h1 with h2
        injection h2 with hsEq hiEq
        subst hsEq
        subst hiEq
        obtain ⟨f1, _, f3⟩ := set_server_facts hset
        exact ⟨f1, rfl, by rw [f3]; exact id⟩
    · rename_i other hne
      split at h
      · simp at h
      · rename_i iA hset
        injection h with h1
        injection h1 with h2
        injection h2 with hsEq hiEq
        subst hsEq
        subst hiEq
        obtain ⟨f1, f2, f3⟩ := set_our_facts hset
        refine ⟨?_, rfl, by rw [f2]; exact id⟩
        intro hb r hr
        rw [f1] at hr
        exact le_trans (hb r hr) f3
  | Closing close =>
    simp only [ConnectionState.process] at h
    split at h
    · simp at h
    · injection h with h1
      injection h1 with h2
      injection h2 with hsEq hiEq
      subst hsEq
      subst hiEq
      exact ⟨id, rfl, id⟩

/-- Dispatching a list of frames preserves the server close bound and the
heartbeat invariant, and does not change whether the state is `Closing`. -/
theorem dispatch_facts {enc : Enc} :
    ∀ {frames : List AMQPFrame} {s : ConnectionState} {i : Inner}
      {s1 : ConnectionState} {i1 : Inner},
      dispatchFrames enc frames s i = some (.ok (s1, i1)) →
      (serverBound i → serverBound i1) ∧ s1.is_closing = s.is_closing ∧
      (InvHB i.heartbeats → InvHB i1.heartbeats) := by
  intro frames
  induction frames with
  | nil =>
    intro s i s1 i1 h
    injection h with h1
    injection h1 with h2
    injection h2 with hsEq hiEq
    subst hsEq
    subst hiEq
    exact ⟨id, rfl, id⟩
  | cons f rest ih =>
    intro s i s1 i1 h
    unfold dispatchFrames at h
    split at h
    · exact ih h
    · split at h
      · exact Option.noConfusion h
      · simp at h
      · rename_i sA iA hproc
        obtain ⟨p1, p2, p3⟩ := process_facts hproc
        obtain ⟨q1, q2, q3⟩ := ih h
        exact ⟨fun hb => q1 (p1 hb), q2.trans p2, fun hi => q3 (p3 hi)⟩

/-- `read_from_stream` preserves the server close bound and the heartbeat
invariant, and does not change whether the state is `Closing`. -/
theorem read_facts {enc : Enc} {s : ConnectionState} {i : Inner}
    {ev : ReadEvent} {s1 : ConnectionState} {i1 : Inner}
    (h : Inner.read_from_stream enc s i ev = some (.ok (s1, i1))) :
    (serverBound i → serverBound i1) ∧ s1.is_closing = s.is_closing ∧
    (InvHB i.heartbeats → InvHB i1.heartbeats) := by
  cases ev with
  | err e => simp [Inner.read_from_stream] at h
  | ok reads frames =>
    simp only [Inner.read_from_stream] at h
    split at h
    · exact Option.noConfusion h
    · simp at h
    · rename_i sA iA hdisp
      obtain ⟨p1, p2, p3⟩ := dispatch_facts hdisp
      split at h
      · injection h with h1
        injection h1 with h2
        injection h2 with hsEq hiEq
        subst hsEq
        subst hiEq
        exact ⟨p1, p2, fun hi => record_rx_invHB (p3 hi)⟩
      · injection h with h1
        injection h1 with h2
        injection h2 with hsEq hiEq
        subst hsEq
        subst hiEq
        exact ⟨p1, p2, p3⟩

/-- A would-block exit of the write loop happened strictly before `len`. -/
theorem writeLoop_blocked_lt {len : Nat} :
    ∀ {oracle : List WriteRes} {pos m k : Nat},
      writeLoop len pos oracle = some (m, .blocked k) → pos ≤ k ∧ k < len := by
  intro oracle
  induction oracle with
  | nil =>
    intro pos m k h
    simp only [writeLoop] at h
    by_cases hp : pos < len
    · rw [if_pos hp] at h
      exact Option.noConfusion h
    · rw [if_neg hp] at h
      injection h with h1
      injection h1 with h2 h3
      exact WriteOutcome.noConfusion h3
  | cons r rest ih =>
    intro pos m k h
    cases r with
    | ok n =>
      simp only [writeLoop] at h
      by_cases hp : pos < len
      · rw [if_pos hp] at h
        cases hrec : writeLoop len (pos + n) rest with
        | none => rw [hrec] at h; exact Option.noConfusion h
        | some p =>
          rw [hrec, Option.map_some'] at h
          injection h with h1
          injection h1 with h2 h3
          have hrec2 : writeLoop len (pos + n) rest = some (p.1, .blocked k) := by
            rw [hrec, ← h3]
          obtain ⟨hle, hlt⟩ := ih hrec2
          exact ⟨le_trans (Nat.le_add_right pos n) hle, hlt⟩
      · rw [if_neg hp] at h
        injection h with h1
        injection h1 with h2 h3
        exact WriteOutcome.noConfusion h3
    | wouldBlock =>
      simp only [writeLoop] at h
      by_cases hp : pos < len
      · rw [if_pos hp] at h
        injection h with h1
        injection h1 with h2 h3
        injection h3 with h4
        subst h4
        exact ⟨Nat.le_refl _, hp⟩
      · rw [if_neg hp] at h
        injection h with h1
        injection h1 with h2 h3
        exact WriteOutcome.noConfusion h3
    | ioErr =>
      simp only [writeLoop] at h
      by_cases hp : pos < len
      · rw [if_pos hp] at h
        injection h with h1
        injection h1 with h2 h3
        exact WriteOutcome.noConfusion h3
      · rw [if_neg hp] at h
        injection h with h1
        injection h1 with h2 h3
        exact WriteOutcome.noConfusion h3

/-- The chosen write length never exceeds a pending server close offset. -/
theorem writeLen_le_server {i : Inner} {r : CloseRequest}
    (h : i.server_close_req = some r) : i.writeLen ≤ r.pos := by
  unfold Inner.writeLen
  rw [h]
  cases i.our_close_req with
  | none => exact Nat.min_le_right _ _
  | some q => exact le_trans (Nat.min_le_left _ _) (Nat.min_le_right _ _)

/-- `write_to_stream` preserves the conditional server close bound and the
heartbeat invariant. -/
theorem write_facts {i : Inner} {state : ConnectionState}
    {oracle : List WriteRes} {s1 : ConnectionState} {i1 : Inner}
    (h : Inner.write_to_stream i state oracle = some (.ok (s1, i1))) :
    ((state.is_closing = false → serverBound i) →
      (s1.is_closing = false → serverBound i1)) ∧
    (InvHB i.heartbeats → InvHB i1.heartbeats) := by
  unfold Inner.write_to_stream at h
  by_cases hc : state.is_closing
  · rw [if_pos hc] at h
    injection h with h1
    injection h1 with h2
    injection h2 with hsEq hiEq
    subst hsEq
    subst hiEq
    refine ⟨fun _ hf => ?_, id⟩
    rw [hc] at hf
    exact Bool.noConfusion hf
  · rw [if_neg hc] at h
    have hcf : state.is_closing = false := by simpa using hc
    dsimp only at h
    split at h
    · exact Option.noConfusion h
    · -- would-block exit
      injection h with h1
      injection h1 with h2
      injection h2 with hsEq hiEq
      subst hsEq
      subst hiEq
      constructor
      · intro hb _ r1 hr1
        have hsb : serverBound i := hb hcf
        cases hsv : i.server_close_req with
        | none => simp [hsv] at hr1
        | some r =>
          simp only [hsv, Option.map_some'] at hr1
          injection hr1 with hr2
          subst hr2
          simp only [OutputBuffer.len, OutputBuffer.drain_written,
            List.length_drop]
          exact Nat.sub_le_sub_right (hsb r hsv) _
      · intro hi
        exact recordTxN_invHB hi
    · simp at h
    · -- completed exit
      split at h
      · rename_i req hsv
        split at h
        · simp at h
        · rename_i hne
          injection h with h1
          injection h1 with h3
          rw [Prod.ext_iff] at h3
          obtain ⟨hs1, hi1⟩ := h3
          subst hs1
          subst hi1
          have hsv' : i.server_close_req = some req := hsv
          cases hour : i.our_close_req with
          | none =>
            constructor
            · intro hb hf
              exfalso
              have hsb : serverBound i := hb hcf
              apply hne
              unfold Inner.writeLen
              rw [hsv', hour]
              show min i.outbuf.len req.pos = req.pos
              exact Nat.min_eq_right (hsb req hsv')
            · intro hi
              exact recordTxN_invHB hi
          | some q =>
            constructor
            · intro hb hf
              exfalso
              have hsb : serverBound i := hb hcf
              by_cases hq : i.writeLen = q.pos
              · unfold Inner.writeFinish at hf
                simp only [hour, hq, if_true, if_pos] at hf
                exact Bool.noConfusion hf
              · have hlen : i.writeLen = min req.pos q.pos := by
                  unfold Inner.writeLen
                  rw [hsv', hour]
                  show min (min i.outbuf.len req.pos) q.pos =
                    min req.pos q.pos
                  rw [Nat.min_eq_right (hsb req hsv')]
                rcases min_choice req.pos q.pos with hmin | hmin
                · exact hne (hlen.trans hmin)
                · exact hq (hlen.trans hmin)
            · intro hi
              exact recordTxN_invHB hi
      · rename_i hsv
        injection h with h1
        injection h1 with h3
        rw [Prod.ext_iff] at h3
        obtain ⟨hs1, hi1⟩ := h3
        subst hs1
        subst hi1
        have hsv' : i.server_close_req = none := hsv
        constructor
        · intro _ _ r1 hr1
          have hr1' : i.server_close_req = some r1 := hr1
          rw [hsv'] at hr1'
          exact Option.noConfusion hr1'
        · intro hi
          exact recordTxN_invHB hi

/-- A successful `fire_rx` presupposes a started rx heartbeat, keeps it
started and leaves the tx side alone. -/
theorem fire_rx_parts {h : HeartbeatTimers} {st : HeartbeatState}
    {h1 : HeartbeatTimers} (hf : h.fire_rx = some (st, h1)) :
    h.rx.isSome ∧ h1.rx.isSome ∧ h1.tx = h.tx := by
  unfold HeartbeatTimers.fire_rx at hf
  cases hrx : h.rx with
  | none => rw [hrx] at hf; exact Option.noConfusion hf
  | some hb =>
    simp only [hrx] at hf
    injection hf with h2
    injection h2 with h3 h4
    subst h4
    exact ⟨rfl, by simp, rfl⟩

/-- A successful `fire_tx` presupposes a started tx heartbeat, keeps it
started and leaves the rx side alone. -/
theorem fire_tx_parts {h : HeartbeatTimers} {st : HeartbeatState}
    {h1 : HeartbeatTimers} (hf : h.fire_tx = some (st, h1)) :
    h.tx.isSome ∧ h1.tx.isSome ∧ h1.rx = h.rx := by
  unfold HeartbeatTimers.fire_tx at hf
  cases htx : h.tx with
  | none => rw [htx] at hf; exact Option.noConfusion hf
  | some hb =>
    simp only [htx] at hf
    injection hf with h2
    injection h2 with h3 h4
    subst h4
    exact ⟨rfl, by simp, rfl⟩

/-- The heartbeat-timer loop preserves the server close bound. -/
theorem hbLoop_serverBound :
    ∀ {due : List HeartbeatKind} {i i1 : Inner},
      processHBLoop due i = some (.ok i1) → serverBound i → serverBound i1 := by
  intro due
  induction due with
  | nil =>
    intro i i1 h hsb
    injection h with h1
    injection h1 with h2
    subst h2
    exact hsb
  | cons kind rest ih =>
    intro i i1 h hsb
    cases kind
    case Rx =>
      simp only [processHBLoop] at h
      split at h
      · exact Option.noConfusion h
      · exact ih h hsb
      · simp at h
    case Tx =>
      simp only [processHBLoop] at h
      split at h
      · exact Option.noConfusion h
      · exact ih h hsb
      · split at h
        · refine ih h ?_
          intro r hr
          refine le_trans (hsb r hr) ?_
          simp [OutputBuffer.push_heartbeat, OutputBuffer.len]
        · exact ih h hsb

/-- The heartbeat-timer loop preserves the heartbeat invariant. -/
theorem hbLoop_invHB :
    ∀ {due : List HeartbeatKind} {i i1 : Inner},
      processHBLoop due i = some (.ok i1) →
      InvHB i.heartbeats → InvHB i1.heartbeats := by
  intro due
  induction due with
  | nil =>
    intro i i1 h hi
    injection h with h1
    injection h1 with h2
    subst h2
    exact hi
  | cons kind rest ih =>
    intro i i1 h hi
    cases kind
    case Rx =>
      simp only [processHBLoop] at h
      split at h
      · exact Option.noConfusion h
      · rename_i h1 hfire
        obtain ⟨hpre, hsome, htxeq⟩ := fire_rx_parts hfire
        refine ih h ⟨?_, ?_⟩
        · have htxs : h1.tx.isSome := by rw [htxeq]; exact hi.1.mp hpre
          simp [hsome, htxs]
        · intro hnone
          rw [hnone] at hsome
          exact Bool.noConfusion hsome
      · simp at h
    case Tx =>
      simp only [processHBLoop] at h
      split at h
      · exact Option.noConfusion h
      · rename_i h1 hfire
        obtain ⟨hpre, hsome, hrxeq⟩ := fire_tx_parts hfire
        refine ih h ⟨?_, ?_⟩
        · have hrxs : h1.rx.isSome := by rw [hrxeq]; exact hi.1.mpr hpre
          simp [hsome, hrxs]
        · intro hnone
          rw [hrxeq] at hnone
          have := hi.1.mpr hpre
          rw [hnone] at this
          exact Bool.noConfusion this
      · rename_i h1 hfire
        obtain ⟨hpre, hsome, hrxeq⟩ := fire_tx_parts hfire
        have hnext : InvHB h1 := by
          refine ⟨?_, ?_⟩
          · have hrxs : h1.rx.isSome := by rw [hrxeq]; exact hi.1.mpr hpre
            simp [hsome, hrxs]
          · intro hnone
            rw [hrxeq] at hnone
            have := hi.1.mpr hpre
            rw [hnone] at this
            exact Bool.noConfusion this
        split at h
        · exact ih h hnext
        · exact ih h hnext

/-- When both heartbeats are started, the heartbeat-timer loop never hits a
panicking `expect` branch. -/
theorem hbLoop_isSome :
    ∀ {due : List HeartbeatKind} {i : Inner},
      i.heartbeats.rx.isSome → i.heartbeats.tx.isSome →
      (processHBLoop due i).isSome := by
  intro due
  induction due with
  | nil =>
    intro i _ _
    simp [processHBLoop]
  | cons kind rest ih =>
    intro i hrx htx
    cases kind
    case Rx =>
      obtain ⟨hbx, hrxeq⟩ := Option.isSome_iff_exists.mp hrx
      by_cases hc : hbx.activityCount > 0
      · simp only [processHBLoop, HeartbeatTimers.fire_rx, hrxeq,
          Heartbeat.fire, if_pos hc]
        exact ih (by simp) htx
      · simp only [processHBLoop, HeartbeatTimers.fire_rx, hrxeq,
          Heartbeat.fire, if_neg hc]
        simp
    case Tx =>
      obtain ⟨hbx, htxeq⟩ := Option.isSome_iff_exists.mp htx
      by_cases hc : hbx.activityCount > 0
      · simp only [processHBLoop, HeartbeatTimers.fire_tx, htxeq,
          Heartbeat.fire, if_pos hc]
        exact ih hrx (by simp)
      · simp only [processHBLoop, HeartbeatTimers.fire_tx, htxeq,
          Heartbeat.fire, if_neg hc]
        split
        · exact ih hrx (by simp)
        · exact ih hrx (by simp)

/-- Every reachable configuration satisfies the system invariant. -/
theorem sysInv_reachable {enc : Enc} {opts : ConnectionOptions} {sys : Sys}
    (h : Reachable enc opts sys) : SysInv sys := by
  unfold Reachable at h
  induction h with
  | refl =>
    refine ⟨fun _ r hr => Option.noConfusion hr, ⟨Iff.rfl, fun _ => ⟨rfl, rfl⟩⟩⟩
  | tail hab hbc ih =>
    cases hbc with
    | read ev s1 i1 hr =>
      obtain ⟨f1, f2, f3⟩ := read_facts hr
      exact ⟨fun hc1 => f1 (ih.1 (f2 ▸ hc1)), f3 ih.2⟩
    | write oracle s1 i1 hv hw =>
      obtain ⟨f1, f2⟩ := write_facts hw
      exact ⟨f1 ih.1, f2 ih.2⟩
    | hb i1 hh =>
      unfold Inner.process_heartbeat_timers at hh
      exact ⟨fun hc1 => hbLoop_serverBound hh (ih.1 hc1),
        hbLoop_invHB hh ih.2⟩
    | tick k pre post hsch =>
      refine ⟨ih.1, ⟨ih.2.1, ?_⟩⟩
      intro hnone
      obtain ⟨_, hsched⟩ := ih.2.2 hnone
      rw [hsch] at hsched
      exact absurd hsched (by simp)

/-- C9: from every reachable configuration, `process_heartbeat_timers` never
reaches the panicking `expect` branches of `fire_rx` / `fire_tx` (modelled as
`none`): the wheel only yields a token for a direction whose heartbeat was
set by `HeartbeatTimers::start`, which sets both. -/
theorem c9_fire_no_panic :
    ∀ (enc : Enc) (opts : ConnectionOptions) (sys : Sys),
      Reachable enc opts sys →
      (Inner.process_heartbeat_timers sys.inner).isSome := by
  intro enc opts sys h
  have hinv := sysInv_reachable h
  unfold Inner.process_heartbeat_timers
  cases hrx : sys.inner.heartbeats.rx with
  | none =>
    obtain ⟨hdue, _⟩ := hinv.2.2 hrx
    rw [hdue]
    simp [processHBLoop]
  | some hb =>
    exact hbLoop_isSome (by simp [hrx]) (hinv.2.1.mp (by simp [hrx]))

/-- C9 witness: the initial configuration fires its (empty) timer wheel
without panicking. -/
theorem c9_fire_no_panic_witness :
    (Inner.process_heartbeat_timers
      (Inner.new opts0 HeartbeatTimers.default)).isSome :=
  c9_fire_no_panic enc0 opts0
    ⟨.Start, Inner.new opts0 HeartbeatTimers.default⟩
    Relation.ReflTransGen.refl

/-- C1 (corrected): in every reachable configuration outside `Closing`,
`server_close_req.pos` is at most `outbuf.len()`; the would-block front-drain
of `k` bytes decreases `server_close_req.pos` by exactly `k` and leaves
`our_close_req` (hence its `pos`) unchanged — so each close offset either
equals its previous value or drops by exactly `k`, but `our_close_req.pos`
is not adjusted and can exceed `outbuf.len()` after a partial write. -/
theorem c1_close_pos_amended :
    (∀ (enc : Enc) (opts : ConnectionOptions) (sys : Sys),
      Reachable enc opts sys →
      sys.state.is_closing = false →
      ∀ r, sys.inner.server_close_req = some r →
        r.pos ≤ sys.inner.outbuf.len) ∧
    (∀ (i : Inner) (state : ConnectionState) (oracle : List WriteRes)
        (m k : Nat) (s1 : ConnectionState) (i1 : Inner),
      state.is_closing = false →
      writeLoop i.writeLen 0 oracle = some (m, .blocked k) →
      i.write_to_stream state oracle = some (.ok (s1, i1)) →
      i1.outbuf.len = i.outbuf.len - k ∧
      i1.our_close_req = i.our_close_req ∧
      (∀ r, i.server_close_req = some r →
        i1.server_close_req = some ⟨r.close, r.pos - k⟩) ∧
      (i.server_close_req = none → i1.server_close_req = none)) := by
  constructor
  · intro enc opts sys h hcl r hr
    exact (sysInv_reachable h).1 hcl r hr
  · intro i state oracle m k s1 i1 hcl hloop hw
    have hncl : ¬(state.is_closing = true) := by simp [hcl]
    unfold Inner.write_to_stream at hw
    rw [if_neg hncl] at hw
    dsimp only at hw
    rw [hloop] at hw
    injection hw with h1
    injection h1 with h2
    injection h2 with hs hi
    subst hs
    subst hi
    refine ⟨?_, rfl, ?_, ?_⟩
    · simp [OutputBuffer.len, OutputBuffer.drain_written]
    · intro r hr
      simp [hr]
    · intro hn
      simp [hn]

/-- `innC4` after a one-byte partial write: one byte drained, server offset
decremented to 2. -/
def innC4b : Inner :=
  { inn0 with
    outbuf := ⟨[10, 0]⟩
    server_close_req := some ⟨⟨200, "ok", 0, 0⟩, 2⟩ }

/-- C1 witness: a one-byte write followed by would-block on `innC4` drains
one byte, drops `server_close_req.pos` from 3 to 2 and leaves
`our_close_req` unchanged. -/
theorem c1_close_pos_witness :
    innC4b.outbuf.len = innC4.outbuf.len - 1 ∧
    innC4b.our_close_req = innC4.our_close_req ∧
    (∀ r, innC4.server_close_req = some r →
      innC4b.server_close_req = some ⟨r.close, r.pos - 1⟩) ∧
    (innC4.server_close_req = none → innC4b.server_close_req = none) :=
  c1_close_pos_amended.2 innC4 .Steady [.ok 1, .wouldBlock] 1 1 .Steady innC4b
    rfl (by decide) rfl

/-- The `Inner` after the client's `start-ok` has been enqueued. -/
def innA1 : Inner := { inn0 with outbuf := ⟨[0, 2, 0]⟩ }

/-- The `Inner` after `start-ok`, `tune-ok` and `open` have been enqueued. -/
def innA2 : Inner :=
  { inn0 with outbuf := ⟨[0, 2, 0, 0, 6, 0, 0, 7, 0]⟩ }

/-- The `Inner` after an unhandled frame in `Steady` enqueued the client's
own `connection.close` (3 bytes) and set `our_close_req` at offset 3. -/
def innA5 : Inner :=
  { inn0 with
    outbuf := ⟨[0, 9, 0]⟩
    our_close_req :=
      some ⟨⟨540, "do not know how to handle frame", 0, 0⟩, 3⟩ }

/-- `innA5` after a one-byte partial write: the buffer lost its first byte
but `our_close_req.pos` still reads 3. -/
def innA6 : Inner :=
  { inn0 with
    outbuf := ⟨[9, 0]⟩
    our_close_req :=
      some ⟨⟨540, "do not know how to handle frame", 0, 0⟩, 3⟩ }

/-- C1 counterexample: a reachable configuration (handshake to `Steady`, an
unhandled frame enqueues the client's own close, then a one-byte write ends
in would-block) in which `our_close_req.pos = 3` exceeds `outbuf.len() = 2`:
the would-block drain decrements only `server_close_req.pos`. -/
theorem c1_close_pos_counterexample :
    Reachable enc0 opts0 ⟨.Steady, innA6⟩ ∧
    innA6.our_close_req =
      some ⟨⟨540, "do not know how to handle frame", 0, 0⟩, 3⟩ ∧
    innA6.outbuf.len < 3 := by
  constructor
  · have t1 : Step enc0 ⟨.Start, Inner.new opts0 HeartbeatTimers.default⟩
        ⟨.Secure, innA1⟩ :=
      Step.read _
        (.ok [8] [.Method 0 (.Connection (.Start ⟨"PLAIN", "en_US"⟩))])
        _ _ rfl
    have t2 : Step enc0 ⟨.Secure, innA1⟩ ⟨.Open, innA2⟩ :=
      Step.read _
        (.ok [8] [.Method 0 (.Connection (.Tune ⟨0, 4096, 0⟩))]) _ _ rfl
    have t3 : Step enc0 ⟨.Open, innA2⟩ ⟨.Open, inn0⟩ :=
      Step.write _ [.ok 9] _ _ rfl rfl
    have t4 : Step enc0 ⟨.Open, inn0⟩ ⟨.Steady, inn0⟩ :=
      Step.read _ (.ok [8] [.Method 0 (.Connection .OpenOk)]) _ _ rfl
    have t5 : Step enc0 ⟨.Steady, inn0⟩ ⟨.Steady, innA5⟩ :=
      Step.read _ (.ok [8] [.Heartbeat 1]) _ _ rfl
    have t6 : Step enc0 ⟨.Steady, innA5⟩ ⟨.Steady, innA6⟩ :=
      Step.write _ [.ok 1, .wouldBlock] _ _ rfl rfl
    exact Relation.ReflTransGen.tail
      (Relation.ReflTransGen.tail
        (Relation.ReflTransGen.tail
          (Relation.ReflTransGen.tail
            (Relation.ReflTransGen.tail
              (Relation.ReflTransGen.tail Relation.ReflTransGen.refl t1)
              t2)
            t3)
          t4)
        t5)
      t6
  · exact ⟨rfl, by decide⟩

end AQ
